import Mathlib

/-!
Verification of the Wentors LinkedIn export-ingestion pipeline.

The definitions below are a shallow embedding, translated from the
repository's Python source:
  * `normalizer_utils.py`  — post-type classification, CTR computation;
  * `export_ingester.py`   — numeric/rate coercion, column mapping,
                              the robust file loader, record normalization;
  * `supabase_io.py`       — the reconciliation (merge) step and the
                              derived-rate recomputation;
  * `debug_dates.py`       — the ambiguous-date resolver.

Python strings are embedded as lists of characters; Python floats are
embedded as exact rationals (`ℚ`), with `round(x, k)` embedded as exact
round-half-to-even at `k` decimal digits; Python ints as `ℕ`/`ℤ`.
-/

/-- Shallow embedding of Python strings: lists of characters. -/
abbrev Str := List Char

/-- The ASCII whitespace characters removed by Python `str.strip()`. -/
def isWS (c : Char) : Bool :=
  c = ' ' || c = '\t' || c = '\n' || c = '\r' || c = '\x0b' || c = '\x0c'

/-- Python `str.strip()`: drop whitespace from both ends. -/
def stripStr (s : Str) : Str :=
  ((s.dropWhile isWS).reverse.dropWhile isWS).reverse

/-- Python `str.lower()` (ASCII model). -/
def lowerStr (s : Str) : Str := s.map Char.toLower

/-- `startsWithStr s p` holds when `p` is an initial segment of `s`. -/
def startsWithStr : Str → Str → Bool
  | _, [] => true
  | [], _ :: _ => false
  | c :: s, p :: ps => c = p && startsWithStr s ps

/-- Python's substring test `p in s`. -/
def containsStr : Str → Str → Bool
  | [], p => startsWithStr [] p
  | c :: s, p => startsWithStr (c :: s) p || containsStr s p

/-- `normalizer_utils.CANON_POST_TYPES`. -/
def CANON_POST_TYPES : List Str :=
  ["text".data, "article".data, "image".data, "document".data, "video".data]

/-- The distribution labels stripped by `normalize_post_type`
(`normalizer_utils.py`, line 10). -/
def distributionLabels : List Str :=
  ["organic".data, "sponsored".data, "paid".data, "boosted".data, "promoted".data]

/-- `normalizer_utils.normalize_post_type`: classify a post into the
canonical type set from its raw label and the concatenated
content/url/title text.  (`content or ''` etc. is modeled by passing the
string directly: an absent value is the empty string.) -/
def normalize_post_type (raw_type content url title : Str) : Str :=
  let raw0 := lowerStr (stripStr raw_type)
  let text := lowerStr (content ++ ' ' :: (url ++ ' ' :: title))
  let raw := if raw0 ∈ distributionLabels then ([] : Str) else raw0
  if containsStr raw "video".data || containsStr text "video".data then
    "video".data
  else if ["image".data, "photo".data, "picture".data].any (containsStr raw) ||
      ["image".data, "photo".data, "picture".data, "jpg".data, "jpeg".data,
        "png".data].any (containsStr text) then
    "image".data
  else if ["document".data, "pdf".data, "doc".data].any (containsStr raw) ||
      ["document".data, "pdf".data, ".pdf".data, ".ppt".data, ".pptx".data,
        ".doc".data, ".docx".data, ".slideshare".data].any (containsStr text) then
    "document".data
  else if ["article".data, "link".data].any (containsStr raw) ||
      containsStr text "/pulse/".data then
    "article".data
  else if containsStr raw "text".data || containsStr raw "status".data then
    "text".data
  else if containsStr text "http".data then
    "article".data
  else
    "text".data

/-! ### Rounding

Python's `round(x, k)` rounds half to even.  Floats are embedded as exact
rationals, so `round` becomes exact round-half-to-even at `k` decimal
digits. -/

/-- Round-half-to-even of a rational to an integer (the rounding mode of
Python's builtin `round`). -/
def rhe (x : ℚ) : ℤ :=
  let n := ⌊x⌋
  let f := x - (n : ℚ)
  if f < 1 / 2 then n
  else if 1 / 2 < f then n + 1
  else if n % 2 = 0 then n else n + 1

/-- Python `round(x, k)` on the exact rational value of `x`. -/
def roundTo (k : ℕ) (x : ℚ) : ℚ :=
  ((rhe (x * (10 : ℚ) ^ k) : ℚ)) / (10 : ℚ) ^ k

/-! ### Numeric and rate coercion (`export_ingester.py`)

Python cells are dynamically typed.  `export_ingester.safe_int` cleans the
cell's text (dropping `%`, commas, whitespace), extracts the first token
matching `[\d,]+(?:\.\d+)?` — a token made only of digit characters, hence
nonnegative — and truncates `int(float(token))`, which for such a token is
its integer part.  `IntCell` abstracts the cell by the outcome of that
pipeline: `.tok ip` is a cell whose first numeric token has integer part
`ip`; `.blank` covers `None`/`NaN`/unparseable cells, which yield `0`.

`export_ingester.clean_rate` branches on the cell's text: a `'%'`-suffixed
string whose inner text parses as a float, a bare value that parses as a
float, and everything unparseable (including `None`/`NaN`).  `RateCell`
abstracts the cell by that classification, carrying the parsed value. -/

/-- A cell as consumed by `export_ingester.safe_int`. -/
inductive IntCell
  | blank
  | tok (ip : ℕ)
deriving DecidableEq, Repr

/-- `export_ingester.safe_int` (lines 30–40): first numeric token's integer
part, else `0`. -/
def safe_int : IntCell → ℕ
  | .blank => 0
  | .tok ip => ip

/-- A cell as consumed by `export_ingester.clean_rate`. -/
inductive RateCell
  | blank
  | pct (q : ℚ)
  | pctBad
  | num (q : ℚ)
  | bad
deriving DecidableEq, Repr

/-- `export_ingester.clean_rate` (lines 83–103): a `%`-suffixed value is
returned as parsed; a bare value in the open interval (0,1) is scaled by
100 and rounded to 6 digits; any other bare value is rounded to 6 digits;
unparseable input yields `0`. -/
def clean_rate : RateCell → ℚ
  | .blank => 0
  | .pct q => q
  | .pctBad => 0
  | .num q => if 0 < q ∧ q < 1 then roundTo 6 (q * 100) else roundTo 6 q
  | .bad => 0

/-- `normalizer_utils.compute_ctr` (lines 34–35): percentage CTR rounded to
**4** digits when impressions are positive, else `0`.  (For an `int`
argument, Python's `impressions and impressions > 0` is `impressions > 0`.) -/
def compute_ctr (clicks impressions : ℕ) : ℚ :=
  if 0 < impressions then
    roundTo 4 (((clicks : ℚ) / (impressions : ℚ)) * 100)
  else 0

/-! ### The record normalizer (`export_ingester.process_posts_file`)

One row of the loaded grid, as seen by the per-row normalization loop
(lines 338–392).  A field is `none` when `find_column` located no column
for it; otherwise it holds the row's cell for that column (the cell itself
may still be blank). -/

structure Row where
  title : Str
  url : Str
  contentTypeRaw : Str
  impressionsCell : Option IntCell
  viewsCell : Option IntCell
  clicksCell : Option IntCell
  ctrCell : Option RateCell
  likesCell : Option IntCell
  commentsCell : Option IntCell
  repostsCell : Option IntCell
  engagementRateCell : Option RateCell

/-- The canonical post record the normalizer emits (the dict literal at
`export_ingester.py` lines 372–391).  `hashtags`/`mentions` are omitted:
no claim mentions them.  `date_collected` is `Option` so that its absence
from the emitted record (`none`) is expressible. -/
structure PostRec where
  post_id : String
  company_id : String
  post_content : Str
  post_date : String
  impressions : ℤ
  clicks : ℤ
  likes : ℤ
  comments : ℤ
  shares : ℤ
  engagement_rate : ℚ
  reach : ℤ
  post_type : Str
  post_url : Str
  post_title : Str
  ctr : ℚ
  date_collected : Option String

/-- Impressions as computed at lines 346–348: the impressions column, with
the views column as fallback when the first yields `0` and a views column
was found. -/
def rowImpressions (r : Row) : ℕ :=
  let i0 : ℕ := match r.impressionsCell with
    | some c => safe_int c
    | none => 0
  if i0 = 0 then
    match r.viewsCell with
    | some c => safe_int c
    | none => i0
  else i0

/-- Clicks as computed at line 350. -/
def rowClicks (r : Row) : ℕ :=
  match r.clicksCell with
  | some c => safe_int c
  | none => 0

/-- The local `ctr_val` of the loop (line 351): the cleaned CTR column if
one was found, else the computed CTR. -/
def rowCtrVal (r : Row) : ℚ :=
  match r.ctrCell with
  | some c => clean_rate c
  | none => compute_ctr (rowClicks r) (rowImpressions r)

/-- Likes as computed at line 353. -/
def rowLikes (r : Row) : ℕ :=
  match r.likesCell with
  | some c => safe_int c
  | none => 0

/-- Comments as computed at line 354. -/
def rowComments (r : Row) : ℕ :=
  match r.commentsCell with
  | some c => safe_int c
  | none => 0

/-- Shares as computed at line 355 (from the reposts column). -/
def rowShares (r : Row) : ℕ :=
  match r.repostsCell with
  | some c => safe_int c
  | none => 0

/-- The local `engagement_rate` of the loop (lines 357–361): recomputed
from the counts when impressions are positive, else the cleaned
engagement-rate column, else `0`. -/
def rowER (r : Row) : ℚ :=
  if 0 < rowImpressions r then
    roundTo 6 ((((rowLikes r + rowComments r + rowShares r +
      rowClicks r : ℕ) : ℚ) / (rowImpressions r : ℚ)) * 100)
  else
    match r.engagementRateCell with
    | some c => clean_rate c
    | none => 0

/-- `export_ingester.process_posts_file`, lines 338–392: normalization of
one row into a `PostRec`.  `post_id` (md5-derived) and the parsed ISO date
are opaque inputs here: no claim depends on their value. -/
def buildPostRecord (cid pid created_iso : String) (r : Row) : PostRec :=
  { post_id := pid
    company_id := cid
    post_content := r.title.take 2000
    post_date := created_iso
    impressions := rowImpressions r
    clicks := rowClicks r
    likes := rowLikes r
    comments := rowComments r
    shares := rowShares r
    engagement_rate := min (rowER r) 100
    reach := rowImpressions r
    post_type := normalize_post_type r.contentTypeRaw r.title r.url r.title
    post_url := r.url
    post_title := r.title.take 500
    ctr := if 0 < rowCtrVal r then rowCtrVal r
      else compute_ctr (rowClicks r) (rowImpressions r)
    date_collected := none }

/-! ### The reconciliation engine (`supabase_io.py`) -/

/-- A baseline row returned by the pre-read
`select("post_id, impressions, clicks, likes, comments, shares, reach")`:
each numeric column may be `NULL` in the store. -/
structure BaselineRow where
  impressions : Option ℤ
  clicks : Option ℤ
  likes : Option ℤ
  comments : Option ℤ
  shares : Option ℤ
  reach : Option ℤ

/-- `supabase_io._safe_int` on the values it meets in `upsert_posts`:
stored numeric columns are `NULL` or integers, and `int(v or 0)` maps
`None` to `0` and an integer to itself.  (The string-repair fallback of
`_safe_int` is unreachable for these inputs.) -/
def safeIntZ : Option ℤ → ℤ
  | none => 0
  | some n => n

/-- `supabase_io._recompute_rates` (lines 21–31): recompute `ctr` and
`engagement_rate` from the record's own counts; `engagement_rate` is
capped at 100, `ctr` is not.  (`_safe_int` on the record's integer fields
is the identity.) -/
def recompute_rates (q : PostRec) : PostRec :=
  let ctr : ℚ :=
    if 0 < q.impressions then
      roundTo 6 (((q.clicks : ℚ) / (q.impressions : ℚ)) * 100)
    else 0
  let er : ℚ :=
    if 0 < q.impressions then
      roundTo 6 ((((q.likes + q.comments + q.shares + q.clicks : ℤ) : ℚ) /
        (q.impressions : ℚ)) * 100)
    else 0
  { q with ctr := ctr, engagement_rate := min er 100 }

/-- The `max`-policy merge of `upsert_posts` (lines 71–75): every tracked
numeric field becomes `max(baseline, incoming)` and the rates are then
recomputed from the merged counts. -/
def mergeMax (base : BaselineRow) (q : PostRec) : PostRec :=
  recompute_rates
    { q with
      impressions := max (safeIntZ base.impressions) q.impressions
      clicks := max (safeIntZ base.clicks) q.clicks
      likes := max (safeIntZ base.likes) q.likes
      comments := max (safeIntZ base.comments) q.comments
      shares := max (safeIntZ base.shares) q.shares
      reach := max (safeIntZ base.reach) q.reach }

/-- One iteration of the partition loop in `upsert_posts` (lines 66–81):
set `company_id`, drop `date_collected`, and route the record to the
insert list (`Sum.inl`) or — merged when the policy is the string
`"max"` — to the update list (`Sum.inr`).  `store` is the baseline read of
step 1: records with a falsy (empty) `post_id` are never looked up. -/
def processPost (store : String → Option BaselineRow) (policy cid : String)
    (p : PostRec) : PostRec ⊕ PostRec :=
  let q : PostRec := { p with company_id := cid, date_collected := none }
  if p.post_id = "" then .inl q
  else
    match store p.post_id with
    | some base => .inr (if policy = "max" then mergeMax base q else q)
    | none => .inl q

/-- Steps 0 and 2 of `upsert_posts`: partition the batch into
`(new_posts, update_posts)`, preserving the loop's append order. -/
def planUpserts (store : String → Option BaselineRow) (policy cid : String) :
    List PostRec → List PostRec × List PostRec
  | [] => ([], [])
  | p :: rest =>
    let acc := planUpserts store policy cid rest
    match processPost store policy cid p with
    | .inl q => (q :: acc.1, acc.2)
    | .inr q => (acc.1, q :: acc.2)

/-! ### The ambiguous-date resolver (`debug_dates.py`) -/

/-- A calendar date as produced by the date parser (midnight timestamps:
the parsed dates in `debug_dates.py` carry no time-of-day). -/
structure CalDate where
  y : ℕ
  m : ℕ
  d : ℕ
deriving DecidableEq, Repr

/-- Day number of a Gregorian date (standard days-from-civil algorithm);
used to embed timestamp differences. -/
def toDays (dt : CalDate) : ℕ :=
  let y := dt.y - (if dt.m ≤ 2 then 1 else 0)
  let era := y / 400
  let yoe := y % 400
  let mp := (dt.m + 9) % 12
  let doy := (153 * mp + 2) / 5 + dt.d - 1
  let doe := yoe * 365 + yoe / 4 - yoe / 100 + doy
  era * 146097 + doe

/-- `(a - b).total_seconds()` for two midnight timestamps. -/
def distSec (a b : CalDate) : ℤ := ((toDays a : ℤ) - (toDays b : ℤ)) * 86400

/-- `datetime` ordering (lexicographic on year, month, day for midnight
timestamps). -/
def dle (a b : CalDate) : Bool :=
  a.y < b.y || (a.y = b.y && (a.m < b.m || (a.m = b.m && a.d ≤ b.d)))

/-- `low <= ts <= hi` with `low = 2015-01-01` and
`hi = Dec 31 of (current year + 1)` (`debug_dates.py` lines 67–71). -/
def inDateWindow (ts : CalDate) (year_now : ℕ) : Bool :=
  dle ⟨2015, 1, 1⟩ ts && dle ts ⟨year_now + 1, 12, 31⟩

/-- Which interpretation of an ambiguous date string was chosen. -/
inductive DateChoice
  | dmy
  | mdy
deriving DecidableEq, Repr

/-- The choice heuristic of `debug_dates.main` (lines 59–73) in the case
where both interpretations parsed: with a campaign-start reference,
pick the closer one (ties to day-first); without one, pick the unique
interpretation inside the plausible window, defaulting to day-first. -/
def choose_interpretation (ts_dmy ts_mdy : CalDate) (ts_camp : Option CalDate)
    (year_now : ℕ) : DateChoice :=
  match ts_camp with
  | some c =>
      if (distSec ts_dmy c).natAbs ≤ (distSec ts_mdy c).natAbs then .dmy
      else .mdy
  | none =>
      let ok_dmy := inDateWindow ts_dmy year_now
      let ok_mdy := inDateWindow ts_mdy year_now
      if ok_dmy && !ok_mdy then .dmy
      else if ok_mdy && !ok_dmy then .mdy
      else .dmy

/-- Digits-run value (for the regex groups of `likely_ambiguous`). -/
def digitsVal (s : Str) : ℕ :=
  s.foldl (fun acc c => acc * 10 + (c.toNat - '0'.toNat)) 0

/-- A date separator: the regex class holding slash and dash. -/
def isSepCh (c : Char) : Bool := c = '/' || c = '-'

/-- The regex match of `debug_dates.likely_ambiguous` (lines 16–22):
one or two digits, separator, one or two digits, separator, two to four
digits, anchored at the start of the stripped string; returns the first
two groups.  A digits run longer than the group's maximum makes the match
fail (the regex cannot backtrack past a digit). -/
def matchAmbig (s : Str) : Option (ℕ × ℕ) :=
  let t := (stripStr s).dropWhile isWS
  let d1 := t.takeWhile Char.isDigit
  let r1 := t.dropWhile Char.isDigit
  if d1.length = 0 || 2 < d1.length then none
  else
    match r1 with
    | [] => none
    | c :: r2 =>
      if !isSepCh c then none
      else
        let d2 := r2.takeWhile Char.isDigit
        let r3 := r2.dropWhile Char.isDigit
        if d2.length = 0 || 2 < d2.length then none
        else
          match r3 with
          | [] => none
          | c2 :: r4 =>
            if !isSepCh c2 then none
            else if (r4.takeWhile Char.isDigit).length < 2 then none
            else some (digitsVal d1, digitsVal d2)

/-- `debug_dates.likely_ambiguous`: the string looks like a slashed or
dashed date whose two leading components are both ≤ 12. -/
def likely_ambiguous (s : Str) : Bool :=
  match matchAmbig s with
  | none => false
  | some (a, b) => a ≤ 12 && b ≤ 12

/-! ### The schema mapper (`export_ingester.find_column`) -/

/-- The header scan `if nl in lower: return cols[lower.index(nl)]`
(line 111–112): leftmost column whose lowercased stripped header equals
`nl`.  The walk is over the stripped headers; their lowercased versions
are recomputed in step, which equals Python's parallel `cols`/`lower`
lists. -/
def findExact (cols : List Str) (nl : Str) : Option Str :=
  match cols with
  | [] => none
  | c :: cs => if lowerStr c = nl then some c else findExact cs nl

/-- The fallback scan at lines 113–115: leftmost column whose lowercased
stripped header contains `nl` as a substring. -/
def findSub (cols : List Str) (nl : Str) : Option Str :=
  match cols with
  | [] => none
  | c :: cs => if containsStr (lowerStr c) nl then some c else findSub cs nl

/-- Per-candidate lookup: exact case-insensitive match first, else the
substring scan. -/
def findCand (cols : List Str) (name : Str) : Option Str :=
  match findExact cols (lowerStr name) with
  | some c => some c
  | none => findSub cols (lowerStr name)

/-- Candidate loop of `find_column` over the stripped headers. -/
def findFirst (cols : List Str) : List Str → Option Str
  | [] => none
  | n :: rest =>
    match findCand cols n with
    | some c => some c
    | none => findFirst cols rest

/-- `export_ingester.find_column` (lines 105–116): headers are stripped,
then candidates are tried in order, each by exact case-insensitive match
first and substring match second. -/
def find_column (cols cands : List Str) : Option Str :=
  findFirst (cols.map stripStr) cands

/-! ### The format loader (`export_ingester.load_posts_df_robust`)

The loader's control flow is embedded over an environment describing the
outcome of each I/O primitive it calls.  `Except PyErr α` is the outcome
of a Python call: `.error` means the call raised.  All branches except one
run under `try`/`except` blocks that convert a raise into an empty grid;
the one exception is the `zipfile.is_zipfile(file_path)` probe in the
`.xlsx` branch (line 227), which runs outside every handler. -/

/-- An abstract Python exception. -/
inductive PyErr
  | fileNotFound
  | badFormat
  | ioError
deriving DecidableEq, Repr

/-- A loaded tabular grid: rows of cells.  Only emptiness matters to the
claims. -/
abbrev TabGrid := List (List Str)

/-- The per-encoding CSV loop (lines 236–241 and 252–258): return the
first successful parse, else an empty grid; every raise is swallowed. -/
def firstOkGrid : List (Except PyErr TabGrid) → TabGrid
  | [] => []
  | .ok g :: _ => g
  | .error _ :: rest => firstOkGrid rest

/-- The filesystem/parse outcomes `load_posts_df_robust` can observe for
one path, by extension.  For a zip, `inner` is the environment of the
extracted member the loader recurses into. -/
inductive FileEnv
  | zipFile (openFail : Bool) (hasTabularMember : Bool) (extractFail : Bool)
      (inner : FileEnv)
  | xlsxFile (zipProbe : Except PyErr Bool) (excelRead : Except PyErr TabGrid)
      (csvTries : List (Except PyErr TabGrid))
  | xlsFile (xlrdRead : Except PyErr TabGrid)
  | csvFile (csvTries : List (Except PyErr TabGrid))
  | otherFile (csvRead : Except PyErr TabGrid)

/-- `export_ingester.load_posts_df_robust` (lines 202–264).  The result is
`.error e` exactly when the Python function would raise `e`. -/
def load_posts_df_robust : FileEnv → Except PyErr TabGrid
  | .zipFile openFail hasTab extractFail inner =>
      if openFail then .ok []
      else if !hasTab then .ok []
      else if extractFail then .ok []
      else
        match load_posts_df_robust inner with
        | .ok g => .ok g
        | .error _ => .ok []
  | .xlsxFile zipProbe excelRead csvTries =>
      match zipProbe with
      | .error e => .error e
      | .ok true =>
          match excelRead with
          | .ok g => .ok g
          | .error _ => .ok (firstOkGrid csvTries)
      | .ok false => .ok (firstOkGrid csvTries)
  | .xlsFile r =>
      .ok (match r with | .ok g => g | .error _ => [])
  | .csvFile tries => .ok (firstOkGrid tries)
  | .otherFile r =>
      .ok (match r with | .ok g => g | .error _ => [])

/-- The one unguarded raise site of the loader: a path with a modern
spreadsheet extension whose `zipfile.is_zipfile` container probe itself
raises (line 227 runs outside every handler). -/
def raisesFromXlsxProbe : FileEnv → Bool
  | .xlsxFile (.error _) _ _ => true
  | _ => false

/-! ### Concrete fixtures used by counterexamples and witnesses -/

/-- A row whose CTR column reads `"250%"` and whose engagement-rate column
reads `"-5%"`, with no impressions data. -/
def c2Row : Row :=
  { title := "A".data, url := [], contentTypeRaw := []
    impressionsCell := none, viewsCell := none, clicksCell := none
    ctrCell := some (.pct 250), likesCell := none, commentsCell := none
    repostsCell := none, engagementRateCell := some (.pct (-5)) }

/-- A row with 3 impressions, 1 click and no CTR column. -/
def c4Row : Row :=
  { title := "A".data, url := [], contentTypeRaw := []
    impressionsCell := some (.tok 3), viewsCell := none
    clicksCell := some (.tok 1), ctrCell := none, likesCell := none
    commentsCell := none, repostsCell := none, engagementRateCell := none }

/-- A row with 2 impressions and 5 clicks (concrete witness data). -/
def wRow : Row :=
  { title := "A".data, url := [], contentTypeRaw := []
    impressionsCell := some (.tok 2), viewsCell := none
    clicksCell := some (.tok 5), ctrCell := none, likesCell := none
    commentsCell := none, repostsCell := none, engagementRateCell := none }

/-- A concrete incoming record (witness data for the merge theorems). -/
def wPost : PostRec :=
  { post_id := "p1", company_id := "wentors", post_content := []
    post_date := "2025-01-01", impressions := 4, clicks := 1, likes := 2
    comments := 0, shares := 0, engagement_rate := 75, reach := 4
    post_type := "text".data, post_url := [], post_title := []
    ctr := 25, date_collected := some "2025-01-01" }

/-- A concrete stored baseline (witness data for the merge theorems). -/
def wBase : BaselineRow :=
  { impressions := some 10, clicks := some 2, likes := some 3
    comments := some 1, shares := none, reach := some 10 }

/-- A store holding `wBase` under every identity (witness data). -/
def wStore : String → Option BaselineRow := fun _ => some wBase


/-! ## Supporting lemmas -/

theorem rhe_intCast (m : ℤ) : rhe (m : ℚ) = m := by
  simp [rhe]

theorem rhe_nonneg {x : ℚ} (hx : 0 ≤ x) : 0 ≤ rhe x := by
  have h0 : (0 : ℤ) ≤ ⌊x⌋ := Int.floor_nonneg.mpr hx
  unfold rhe
  dsimp only
  split
  · exact h0
  · split
    · omega
    · split <;> omega

theorem rhe_le_of_le {x : ℚ} {m : ℤ} (hx : x ≤ (m : ℚ)) : rhe x ≤ m := by
  have hfl : ⌊x⌋ ≤ m := by
    have := Int.floor_le_floor hx
    simpa using this
  rcases eq_or_lt_of_le hfl with heq | hlt
  · have hfr : x - (⌊x⌋ : ℚ) ≤ 0 := by
      rw [heq]
      linarith
    have hlt2 : x - (⌊x⌋ : ℚ) < 1 / 2 := by linarith
    unfold rhe
    dsimp only
    rw [if_pos hlt2]
    exact hfl
  · unfold rhe
    dsimp only
    split
    · exact hfl
    · split
      · omega
      · split <;> omega

theorem rhe_ge_of_ge {x : ℚ} {m : ℤ} (hx : (m : ℚ) ≤ x) : m ≤ rhe x := by
  have hfl : m ≤ ⌊x⌋ := Int.le_floor.mpr hx
  unfold rhe
  dsimp only
  split
  · exact hfl
  · split
    · omega
    · split <;> omega

theorem roundTo_nonneg {x : ℚ} (k : ℕ) (hx : 0 ≤ x) : 0 ≤ roundTo k x := by
  have h1 : (0 : ℤ) ≤ rhe (x * (10 : ℚ) ^ k) :=
    rhe_nonneg (mul_nonneg hx (by positivity))
  have h2 : (0 : ℚ) ≤ (rhe (x * (10 : ℚ) ^ k) : ℚ) := by exact_mod_cast h1
  exact div_nonneg h2 (by positivity)

theorem roundTo_le_of_le {x : ℚ} {m : ℤ} (k : ℕ) (hx : x ≤ (m : ℚ)) :
    roundTo k x ≤ (m : ℚ) := by
  have hpow : (0 : ℚ) < (10 : ℚ) ^ k := by positivity
  have h1 : x * (10 : ℚ) ^ k ≤ ((m * 10 ^ k : ℤ) : ℚ) := by
    push_cast
    exact mul_le_mul_of_nonneg_right hx (le_of_lt hpow)
  have h2 : rhe (x * (10 : ℚ) ^ k) ≤ m * 10 ^ k := rhe_le_of_le h1
  have h3 : ((rhe (x * (10 : ℚ) ^ k) : ℤ) : ℚ) ≤ ((m * 10 ^ k : ℤ) : ℚ) := by
    exact_mod_cast h2
  rw [roundTo, div_le_iff₀ hpow]
  calc ((rhe (x * (10 : ℚ) ^ k) : ℤ) : ℚ) ≤ ((m * 10 ^ k : ℤ) : ℚ) := h3
    _ = (m : ℚ) * (10 : ℚ) ^ k := by push_cast; ring

theorem roundTo_ge_of_ge {x : ℚ} {m : ℤ} (k : ℕ) (hx : (m : ℚ) ≤ x) :
    (m : ℚ) ≤ roundTo k x := by
  have hpow : (0 : ℚ) < (10 : ℚ) ^ k := by positivity
  have h1 : ((m * 10 ^ k : ℤ) : ℚ) ≤ x * (10 : ℚ) ^ k := by
    push_cast
    exact mul_le_mul_of_nonneg_right hx (le_of_lt hpow)
  have h2 : m * 10 ^ k ≤ rhe (x * (10 : ℚ) ^ k) := rhe_ge_of_ge h1
  have h3 : ((m * 10 ^ k : ℤ) : ℚ) ≤ ((rhe (x * (10 : ℚ) ^ k) : ℤ) : ℚ) := by
    exact_mod_cast h2
  rw [roundTo, le_div_iff₀ hpow]
  calc (m : ℚ) * (10 : ℚ) ^ k = ((m * 10 ^ k : ℤ) : ℚ) := by push_cast; ring
    _ ≤ ((rhe (x * (10 : ℚ) ^ k) : ℤ) : ℚ) := h3

theorem roundTo_idem (k : ℕ) (x : ℚ) : roundTo k (roundTo k x) = roundTo k x := by
  have hpow : ((10 : ℚ) ^ k) ≠ 0 := by positivity
  unfold roundTo
  rw [div_mul_cancel₀ _ hpow, rhe_intCast]

theorem compute_ctr_nonneg (c i : ℕ) : 0 ≤ compute_ctr c i := by
  unfold compute_ctr
  split
  · exact roundTo_nonneg 4 (by positivity)
  · exact le_refl 0

/-! ## Claim theorems -/

/-- C3: every record, whether produced by the normalizer
(`process_posts_file`) or by the `max`-policy merge recompute
(`_recompute_rates`), has `engagement_rate ≤ 100` — including when
`likes + comments + shares + clicks` exceeds `impressions`, since the cap
`min(er, 100)` is applied unconditionally in both places. -/
theorem c3_engagement_rate_le_100 :
    (∀ cid pid d r, (buildPostRecord cid pid d r).engagement_rate ≤ 100) ∧
    (∀ q : PostRec, (recompute_rates q).engagement_rate ≤ 100) ∧
    (∀ base q, (mergeMax base q).engagement_rate ≤ 100) :=
  ⟨fun _ _ _ _ => min_le_right _ _,
   fun _ => min_le_right _ _,
   fun _ _ => min_le_right _ _⟩

/-- C6: distribution labels (organic/sponsored/paid/boosted/promoted) are
stripped before classification, so a record carrying one classifies
exactly as a record with no raw label; the output is always in the
canonical set; and a "Sponsored" record whose text mentions "video"
classifies as `video`. -/
theorem c6_post_type_classification :
    (∀ raw content url title, raw ∈ distributionLabels →
        normalize_post_type raw content url title
          = normalize_post_type [] content url title) ∧
    (∀ raw content url title,
        normalize_post_type raw content url title ∈ CANON_POST_TYPES) ∧
    (∀ content url title,
        containsStr (lowerStr (content ++ ' ' :: (url ++ ' ' :: title)))
          "video".data = true →
        normalize_post_type "Sponsored".data content url title
          = "video".data) := by
  refine ⟨?_, ?_, ?_⟩
  · intro raw c u t h
    simp only [distributionLabels, List.mem_cons, List.not_mem_nil,
      or_false] at h
    rcases h with rfl | rfl | rfl | rfl | rfl <;> rfl
  · intro raw c u t
    simp only [normalize_post_type]
    split_ifs <;> simp [CANON_POST_TYPES]
  · intro c u t h
    simp only [normalize_post_type]
    rw [show (if lowerStr (stripStr "Sponsored".data) ∈ distributionLabels
        then ([] : Str) else lowerStr (stripStr "Sponsored".data)) = [] by
      decide]
    rw [h]
    simp

/-- Witness for `c6_post_type_classification` at concrete inputs. -/
theorem c6_witness :
    normalize_post_type "sponsored".data "hello".data [] []
      = normalize_post_type [] "hello".data [] [] ∧
    normalize_post_type "Sponsored".data "our new video".data [] []
      = "video".data :=
  ⟨c6_post_type_classification.1 "sponsored".data "hello".data [] []
      (by decide),
   c6_post_type_classification.2.2 "our new video".data [] [] (by decide)⟩

theorem mergeMax_date_collected (base : BaselineRow) (q : PostRec) :
    (mergeMax base q).date_collected = q.date_collected := rfl

theorem processPost_date_collected (store : String → Option BaselineRow)
    (policy cid : String) (p : PostRec) :
    (processPost store policy cid p).elim PostRec.date_collected
      PostRec.date_collected = none := by
  unfold processPost
  dsimp only
  split
  · rfl
  · split
    · split <;> rfl
    · rfl

/-- C10: every record the reconciliation engine emits — the insert list
and the update list of `planUpserts`, under any policy — has the
`date_collected` field removed, and the normalizer never sets it in the
first place. -/
theorem c10_date_collected_protected :
    (∀ cid pid d r, (buildPostRecord cid pid d r).date_collected = none) ∧
    (∀ store policy cid posts (q : PostRec),
        q ∈ (planUpserts store policy cid posts).1 ∨
        q ∈ (planUpserts store policy cid posts).2 →
        q.date_collected = none) := by
  constructor
  · intro cid pid d r
    rfl
  · intro store policy cid posts
    induction posts with
    | nil =>
      intro q h
      rcases h with h | h <;> simp [planUpserts] at h
    | cons p rest ih =>
      intro q h
      have hp := processPost_date_collected store policy cid p
      rcases hcase : processPost store policy cid p with q0 | q0 <;>
        rw [hcase] at hp <;>
        simp only [planUpserts, hcase] at h
      · rcases h with h | h
        · rcases List.mem_cons.mp h with rfl | hmem
          · exact hp
          · exact ih q (Or.inl hmem)
        · exact ih q (Or.inr h)
      · rcases h with h | h
        · exact ih q (Or.inl h)
        · rcases List.mem_cons.mp h with rfl | hmem
          · exact hp
          · exact ih q (Or.inr hmem)

/-- Witness for `c10_date_collected_protected` at a concrete batch. -/
theorem c10_witness :
    (mergeMax wBase
        { wPost with company_id := "wentors", date_collected := none
        }).date_collected = none :=
  c10_date_collected_protected.2 wStore "max" "wentors" [wPost] _
    (Or.inr (List.mem_cons_self _ _))

theorem processPost_existing_max (store : String → Option BaselineRow)
    (cid : String) (p : PostRec) (base : BaselineRow)
    (hid : p.post_id ≠ "") (hstore : store p.post_id = some base) :
    processPost store "max" cid p
      = .inr (mergeMax base
          { p with company_id := cid, date_collected := none }) := by
  unfold processPost
  dsimp only
  rw [if_neg hid, hstore]
  simp

/-- C1: under policy `max`, an EXISTING record's write value is the
fieldwise `max(persisted baseline, incoming)` on all six tracked numeric
metrics, `ctr`/`engagement_rate` are recomputed from the merged counts,
every stored numeric field only ever grows, and such merged records are
exactly what `planUpserts` routes to the update list. -/
theorem c1_max_merge_monotonic :
    (∀ base q,
      (mergeMax base q).impressions
        = max (safeIntZ base.impressions) q.impressions ∧
      (mergeMax base q).clicks = max (safeIntZ base.clicks) q.clicks ∧
      (mergeMax base q).likes = max (safeIntZ base.likes) q.likes ∧
      (mergeMax base q).comments = max (safeIntZ base.comments) q.comments ∧
      (mergeMax base q).shares = max (safeIntZ base.shares) q.shares ∧
      (mergeMax base q).reach = max (safeIntZ base.reach) q.reach) ∧
    (∀ base q,
      (mergeMax base q).ctr =
        (if 0 < (mergeMax base q).impressions then
          roundTo 6 ((((mergeMax base q).clicks : ℚ) /
            ((mergeMax base q).impressions : ℚ)) * 100)
        else 0) ∧
      (mergeMax base q).engagement_rate =
        min (if 0 < (mergeMax base q).impressions then
          roundTo 6 (((((mergeMax base q).likes + (mergeMax base q).comments +
            (mergeMax base q).shares + (mergeMax base q).clicks : ℤ)) : ℚ) /
            ((mergeMax base q).impressions : ℚ) * 100)
        else 0) 100) ∧
    (∀ base q,
      safeIntZ base.impressions ≤ (mergeMax base q).impressions ∧
      safeIntZ base.clicks ≤ (mergeMax base q).clicks ∧
      safeIntZ base.likes ≤ (mergeMax base q).likes ∧
      safeIntZ base.comments ≤ (mergeMax base q).comments ∧
      safeIntZ base.shares ≤ (mergeMax base q).shares ∧
      safeIntZ base.reach ≤ (mergeMax base q).reach) ∧
    (∀ store cid (p : PostRec) base posts,
      p ∈ posts → p.post_id ≠ "" → store p.post_id = some base →
      mergeMax base { p with company_id := cid, date_collected := none }
        ∈ (planUpserts store "max" cid posts).2) := by
  refine ⟨?_, ?_, ?_, ?_⟩
  · exact fun base q => ⟨rfl, rfl, rfl, rfl, rfl, rfl⟩
  · exact fun base q => ⟨rfl, rfl⟩
  · exact fun base q =>
      ⟨le_max_left _ _, le_max_left _ _, le_max_left _ _,
        le_max_left _ _, le_max_left _ _, le_max_left _ _⟩
  · intro store cid p base posts
    induction posts with
    | nil =>
      intro hmem _ _
      cases hmem
    | cons a rest ih =>
      intro hmem hid hstore
      rcases List.mem_cons.mp hmem with rfl | hmem2
      · rw [show planUpserts store "max" cid (p :: rest)
            = ((planUpserts store "max" cid rest).1,
                mergeMax base
                    { p with company_id := cid, date_collected := none } ::
                  (planUpserts store "max" cid rest).2) from by
          simp [planUpserts, processPost_existing_max store cid p base hid
            hstore]]
        exact List.mem_cons_self _ _
      · rcases hcase : processPost store "max" cid a with q0 | q0 <;>
          simp only [planUpserts, hcase]
        · exact ih hmem2 hid hstore
        · exact List.mem_cons_of_mem _ (ih hmem2 hid hstore)

/-- Witness for `c1_max_merge_monotonic`: a concrete one-record batch
whose identity is present in the store lands, merged, in the update
list. -/
theorem c1_witness :
    mergeMax wBase
        { wPost with company_id := "wentors", date_collected := none }
      ∈ (planUpserts wStore "max" "wentors" [wPost]).2 :=
  c1_max_merge_monotonic.2.2.2 wStore "wentors" wPost wBase [wPost]
    (List.mem_cons_self _ _) (by decide) rfl

/-- C7: for an ambiguous date string (both leading components ≤ 12) whose
two interpretations both parse, the resolver picks the interpretation
closer to the campaign-start reference when one exists; with no
reference it picks the unique interpretation inside the 2015-to-next-year
window and defaults to day-first when both or neither qualify; and the
concrete string "08/06/2025" with reference 2025-06-09 resolves
day-first, to 8 June 2025. -/
theorem c7_date_resolver :
    (∀ d m c y, (distSec d c).natAbs < (distSec m c).natAbs →
        choose_interpretation d m (some c) y = .dmy) ∧
    (∀ d m c y, (distSec m c).natAbs < (distSec d c).natAbs →
        choose_interpretation d m (some c) y = .mdy) ∧
    (∀ d m y, inDateWindow d y = true → inDateWindow m y = false →
        choose_interpretation d m none y = .dmy) ∧
    (∀ d m y, inDateWindow m y = true → inDateWindow d y = false →
        choose_interpretation d m none y = .mdy) ∧
    (∀ d m y, inDateWindow d y = inDateWindow m y →
        choose_interpretation d m none y = .dmy) ∧
    (likely_ambiguous "08/06/2025".data = true ∧
      choose_interpretation ⟨2025, 6, 8⟩ ⟨2025, 8, 6⟩ (some ⟨2025, 6, 9⟩) 2025
        = .dmy) := by
  refine ⟨?_, ?_, ?_, ?_, ?_, by decide, by decide⟩
  · intro d m c y h
    simp only [choose_interpretation]
    rw [if_pos (le_of_lt h)]
  · intro d m c y h
    simp only [choose_interpretation]
    rw [if_neg (not_le.mpr h)]
  · intro d m y h1 h2
    simp [choose_interpretation, h1, h2]
  · intro d m y h1 h2
    simp [choose_interpretation, h1, h2]
  · intro d m y h
    cases hd : inDateWindow d y <;> rw [hd] at h <;>
      simp [choose_interpretation, hd, h.symm]

/-- Witness for `c7_date_resolver` at concrete dates. -/
theorem c7_witness :
    choose_interpretation ⟨2025, 6, 8⟩ ⟨2025, 8, 6⟩ (some ⟨2025, 6, 9⟩) 2025
        = .dmy ∧
    choose_interpretation ⟨2025, 8, 6⟩ ⟨2025, 6, 8⟩ (some ⟨2025, 6, 9⟩) 2025
        = .mdy ∧
    choose_interpretation ⟨2025, 6, 8⟩ ⟨1999, 6, 8⟩ none 2025 = .dmy ∧
    choose_interpretation ⟨1999, 6, 8⟩ ⟨2025, 6, 8⟩ none 2025 = .mdy ∧
    choose_interpretation ⟨2025, 6, 8⟩ ⟨2025, 8, 6⟩ none 2025 = .dmy :=
  ⟨c7_date_resolver.1 _ _ _ 2025 (by decide),
   c7_date_resolver.2.1 _ _ _ 2025 (by decide),
   c7_date_resolver.2.2.1 _ _ 2025 (by decide) (by decide),
   c7_date_resolver.2.2.2.1 _ _ 2025 (by decide) (by decide),
   c7_date_resolver.2.2.2.2.1 _ _ 2025 (by decide)⟩

/-- Counterexample to C2 as stated: on a row whose CTR column reads
`"250%"` and whose engagement-rate column reads `"-5%"` (and which has no
impressions), the normalized record has `ctr = 250 > 100` and
`engagement_rate = -5 < 0`, so neither derived rate lies in [0,100]. -/
theorem c2_counterexample :
    ¬ (0 ≤ (buildPostRecord "wentors" "p1" "2025-01-01" c2Row).ctr ∧
        (buildPostRecord "wentors" "p1" "2025-01-01" c2Row).ctr ≤ 100 ∧
        0 ≤ (buildPostRecord "wentors" "p1" "2025-01-01"
              c2Row).engagement_rate ∧
        (buildPostRecord "wentors" "p1" "2025-01-01"
            c2Row).engagement_rate ≤ 100) := by
  have hc : (buildPostRecord "wentors" "p1" "2025-01-01" c2Row).ctr = 250 := by
    norm_num [buildPostRecord, rowCtrVal, c2Row, clean_rate]
  intro h
  rw [hc] at h
  norm_num at h

/-- C2 amended: for every normalized record, `ctr ≥ 0` and
`engagement_rate ≤ 100` always hold, and `engagement_rate` also lies in
[0,100] whenever the record has positive impressions; but `ctr` is not
bounded above by 100, and `engagement_rate` can be negative when a
zero-impression row carries a negative raw rate cell. -/
theorem c2_rate_bounds :
    ∀ cid pid d r,
      0 ≤ (buildPostRecord cid pid d r).ctr ∧
      (buildPostRecord cid pid d r).engagement_rate ≤ 100 ∧
      (0 < (buildPostRecord cid pid d r).impressions →
        0 ≤ (buildPostRecord cid pid d r).engagement_rate) := by
  intro cid pid d r
  refine ⟨?_, min_le_right _ _, ?_⟩
  · have hctr : (buildPostRecord cid pid d r).ctr
        = if 0 < rowCtrVal r then rowCtrVal r
          else compute_ctr (rowClicks r) (rowImpressions r) := rfl
    rw [hctr]
    split_ifs with h
    · exact le_of_lt h
    · exact compute_ctr_nonneg _ _
  · intro h
    have hpos : 0 < rowImpressions r := by
      have himp : (buildPostRecord cid pid d r).impressions
          = ((rowImpressions r : ℕ) : ℤ) := rfl
      rw [himp] at h
      exact_mod_cast h
    have her : (buildPostRecord cid pid d r).engagement_rate
        = min (rowER r) 100 := rfl
    rw [her]
    refine le_min ?_ (by norm_num)
    rw [rowER, if_pos hpos]
    exact roundTo_nonneg 6 (by positivity)

/-- Witness for `c2_rate_bounds` at a concrete positive-impression row. -/
theorem c2_witness :
    0 ≤ (buildPostRecord "wentors" "p1" "2025-01-01" wRow).ctr ∧
    (buildPostRecord "wentors" "p1" "2025-01-01" wRow).engagement_rate
      ≤ 100 ∧
    0 ≤ (buildPostRecord "wentors" "p1" "2025-01-01" wRow).engagement_rate :=
  ⟨(c2_rate_bounds "wentors" "p1" "2025-01-01" wRow).1,
   (c2_rate_bounds "wentors" "p1" "2025-01-01" wRow).2.1,
   (c2_rate_bounds "wentors" "p1" "2025-01-01" wRow).2.2 (by decide)⟩

/-- Counterexample to C4 as stated: a row with 3 impressions, 1 click and
no CTR column gets `ctr = round(100/3, 4) = 33.3333` — `compute_ctr`
rounds to 4 digits, not 6 — which differs from
`round(clicks/impressions*100, 6) = 33.333333`. -/
theorem c4_counterexample :
    0 < (buildPostRecord "wentors" "p1" "2025-01-01" c4Row).impressions ∧
    (buildPostRecord "wentors" "p1" "2025-01-01" c4Row).ctr ≠
      roundTo 6
        ((((buildPostRecord "wentors" "p1" "2025-01-01" c4Row).clicks : ℚ) /
          ((buildPostRecord "wentors" "p1" "2025-01-01" c4Row).impressions :
            ℚ)) * 100) := by
  constructor
  · decide
  · have hclicks : (buildPostRecord "wentors" "p1" "2025-01-01" c4Row).clicks
        = 1 := by decide
    have himp :
        (buildPostRecord "wentors" "p1" "2025-01-01" c4Row).impressions
          = 3 := by decide
    have hctr : (buildPostRecord "wentors" "p1" "2025-01-01" c4Row).ctr
        = 333333 / 10000 := by
      norm_num [buildPostRecord, rowCtrVal, rowClicks, rowImpressions, c4Row,
        safe_int, compute_ctr, roundTo, rhe]
    rw [hclicks, himp, hctr]
    norm_num [roundTo, rhe]

/-- C4 amended: `compute_ctr` is `round(clicks/impressions*100, 4)` (4
digits, not 6) for positive impressions and `0` otherwise; and the
record's `ctr` equals `compute_ctr(clicks, impressions)` only when the
CTR column is absent or its cleaned value is not positive — a positive
cleaned CTR-column value is passed through unrecomputed. -/
theorem c4_ctr_formula :
    (∀ c i : ℕ, 0 < i →
        compute_ctr c i = roundTo 4 (((c : ℚ) / (i : ℚ)) * 100)) ∧
    (∀ c : ℕ, compute_ctr c 0 = 0) ∧
    (∀ cid pid d r, r.ctrCell = none →
        (buildPostRecord cid pid d r).ctr
          = compute_ctr (rowClicks r) (rowImpressions r)) ∧
    (∀ cid pid d r cell, r.ctrCell = some cell → 0 < clean_rate cell →
        (buildPostRecord cid pid d r).ctr = clean_rate cell) ∧
    (∀ cid pid d r cell, r.ctrCell = some cell → ¬ 0 < clean_rate cell →
        (buildPostRecord cid pid d r).ctr
          = compute_ctr (rowClicks r) (rowImpressions r)) := by
  have hctr : ∀ cid pid d r, (buildPostRecord cid pid d r).ctr
      = if 0 < rowCtrVal r then rowCtrVal r
        else compute_ctr (rowClicks r) (rowImpressions r) :=
    fun _ _ _ _ => rfl
  refine ⟨?_, ?_, ?_, ?_, ?_⟩
  · intro c i h
    rw [compute_ctr, if_pos h]
  · intro c
    rw [compute_ctr]
    simp
  · intro cid pid d r h
    have hv : rowCtrVal r = compute_ctr (rowClicks r) (rowImpressions r) := by
      simp [rowCtrVal, h]
    rw [hctr, hv]
    split_ifs <;> rfl
  · intro cid pid d r cell h hpos
    have hv : rowCtrVal r = clean_rate cell := by
      simp [rowCtrVal, h]
    rw [hctr, hv, if_pos hpos]
  · intro cid pid d r cell h hneg
    have hv : rowCtrVal r = clean_rate cell := by
      simp [rowCtrVal, h]
    rw [hctr, hv, if_neg hneg]

/-- Witness for `c4_ctr_formula` at concrete inputs. -/
theorem c4_witness :
    compute_ctr 1 3 = roundTo 4 ((((1 : ℕ) : ℚ) / ((3 : ℕ) : ℚ)) * 100) ∧
    (buildPostRecord "wentors" "p1" "2025-01-01" c4Row).ctr
      = compute_ctr (rowClicks c4Row) (rowImpressions c4Row) ∧
    (buildPostRecord "wentors" "p1" "2025-01-01" c2Row).ctr
      = clean_rate (.pct 250) :=
  ⟨c4_ctr_formula.1 1 3 (by norm_num),
   c4_ctr_formula.2.2.1 "wentors" "p1" "2025-01-01" c4Row rfl,
   c4_ctr_formula.2.2.2.1 "wentors" "p1" "2025-01-01" c2Row (.pct 250) rfl
     (by norm_num [clean_rate])⟩

/-- Counterexample to C5 as stated: `0.36` is in the image of `clean_rate`
(it is `clean_rate` of the `%`-suffixed cell `"0.36%"`), yet re-applying
`clean_rate` to it yields `36`, not `0.36` — so `clean_rate` is not
idempotent on its full image. -/
theorem c5_counterexample :
    clean_rate (.pct (36 / 100)) = 36 / 100 ∧
    clean_rate (.num (clean_rate (.pct (36 / 100))))
      ≠ clean_rate (.pct (36 / 100)) := by
  constructor
  · rfl
  · norm_num [clean_rate, roundTo, rhe]

/-- C5 amended: re-normalizing a bare-numeric `clean_rate` output is a
no-op whenever that output is not in the open interval (0,1) (every such
output carries at most six decimal digits, and `clean_rate` fixes any
such value); in particular 36.0 normalizes to 36.0 twice over and 0.36
normalizes to 36.0.  Idempotence fails only for image values inside
(0,1), which can arise from `%`-suffixed cells or values below 0.01. -/
theorem c5_clean_rate_idem :
    (∀ q : ℚ,
        ¬ (0 < clean_rate (.num q) ∧ clean_rate (.num q) < 1) →
        clean_rate (.num (clean_rate (.num q))) = clean_rate (.num q)) ∧
    (∀ v : ℚ, roundTo 6 v = v → ¬ (0 < v ∧ v < 1) →
        clean_rate (.num v) = v) ∧
    (∀ q : ℚ, roundTo 6 (clean_rate (.num q)) = clean_rate (.num q)) ∧
    clean_rate (.num 36) = 36 ∧
    clean_rate (.num (clean_rate (.num 36))) = 36 ∧
    clean_rate (.num (36 / 100)) = 36 := by
  have hfix : ∀ v : ℚ, roundTo 6 v = v → ¬ (0 < v ∧ v < 1) →
      clean_rate (.num v) = v := by
    intro v h6 hout
    simp only [clean_rate]
    rw [if_neg hout, h6]
  have h6 : ∀ q : ℚ, roundTo 6 (clean_rate (.num q)) = clean_rate (.num q) := by
    intro q
    simp only [clean_rate]
    split_ifs <;> exact roundTo_idem 6 _
  have h36 : clean_rate (.num 36) = 36 := by
    norm_num [clean_rate, roundTo, rhe]
  refine ⟨fun q hq => hfix _ (h6 q) hq, hfix, h6, h36, ?_, ?_⟩
  · rw [h36, h36]
  · norm_num [clean_rate, roundTo, rhe]

/-- Witness for `c5_clean_rate_idem` at concrete inputs. -/
theorem c5_witness :
    clean_rate (.num (clean_rate (.num 36))) = clean_rate (.num 36) ∧
    clean_rate (.num 5) = 5 :=
  ⟨c5_clean_rate_idem.1 36 (by norm_num [clean_rate, roundTo, rhe]),
   c5_clean_rate_idem.2.1 5 (by norm_num [roundTo, rhe]) (by norm_num)⟩

/-- Counterexample to C8 as stated: a path with the modern-spreadsheet
extension whose container probe raises (e.g. the file does not exist)
makes the loader raise — the probe at line 227 runs outside every
`try` — instead of returning a grid. -/
theorem c8_counterexample :
    ¬ ∃ g, load_posts_df_robust
        (.xlsxFile (.error .fileNotFound) (.error .fileNotFound) [])
        = .ok g := by
  rintro ⟨g, h⟩
  simp [load_posts_df_robust] at h

/-- C8 amended: the loader returns a (possibly empty) grid and never
raises for every input except a modern-spreadsheet path whose container
probe itself raises; in particular it is total on every openable file and
on every path of any other extension, and every failing stage inside the
handlers yields an empty grid. -/
theorem c8_loader_total :
    ∀ env, raisesFromXlsxProbe env = false →
      ∃ g, load_posts_df_robust env = .ok g := by
  intro env h
  cases env with
  | zipFile openFail hasTab extractFail inner =>
    simp only [load_posts_df_robust]
    split_ifs
    · exact ⟨[], rfl⟩
    · exact ⟨[], rfl⟩
    · exact ⟨[], rfl⟩
    · cases hl : load_posts_df_robust inner with
      | ok g => exact ⟨g, rfl⟩
      | error e => exact ⟨[], rfl⟩
  | xlsxFile probe excel tries =>
    cases probe with
    | error e => simp [raisesFromXlsxProbe] at h
    | ok b =>
      cases b with
      | true =>
        cases excel with
        | ok g => exact ⟨g, rfl⟩
        | error e => exact ⟨firstOkGrid tries, rfl⟩
      | false => exact ⟨firstOkGrid tries, rfl⟩
  | xlsFile r => exact ⟨_, rfl⟩
  | csvFile tries => exact ⟨_, rfl⟩
  | otherFile r => exact ⟨_, rfl⟩

/-- Witness for `c8_loader_total` at a concrete environment. -/
theorem c8_witness :
    ∃ g, load_posts_df_robust (.csvFile [.error .badFormat]) = .ok g :=
  c8_loader_total (.csvFile [.error .badFormat]) rfl

theorem startsWithStr_refl (s : Str) : startsWithStr s s = true := by
  induction s with
  | nil => rfl
  | cons c cs ih => simp [startsWithStr, ih]

theorem containsStr_self (s : Str) : containsStr s s = true := by
  cases s with
  | nil => rfl
  | cons c cs => simp [containsStr, startsWithStr_refl]

theorem findExact_some {cols : List Str} {nl c : Str}
    (h : findExact cols nl = some c) : c ∈ cols ∧ lowerStr c = nl := by
  induction cols with
  | nil => cases h
  | cons x xs ih =>
    by_cases hx : lowerStr x = nl
    · simp only [findExact, if_pos hx] at h
      injection h with h
      subst h
      exact ⟨List.mem_cons_self _ _, hx⟩
    · simp only [findExact, if_neg hx] at h
      rcases ih h with ⟨hm, he⟩
      exact ⟨List.mem_cons_of_mem _ hm, he⟩

theorem findExact_eq_none_iff (cols : List Str) (nl : Str) :
    findExact cols nl = none ↔ ∀ c ∈ cols, lowerStr c ≠ nl := by
  induction cols with
  | nil => simp [findExact]
  | cons c cs ih =>
    by_cases h : lowerStr c = nl
    · simp [findExact, h]
    · simp [findExact, h, ih]

theorem findSub_eq_none_iff (cols : List Str) (nl : Str) :
    findSub cols nl = none ↔
      ∀ c ∈ cols, containsStr (lowerStr c) nl = false := by
  induction cols with
  | nil => simp [findSub]
  | cons c cs ih =>
    cases h : containsStr (lowerStr c) nl
    · simp [findSub, h, ih]
    · simp [findSub, h]

theorem findCand_eq_none_iff (cols : List Str) (n : Str) :
    findCand cols n = none ↔
      ∀ c ∈ cols, containsStr (lowerStr c) (lowerStr n) = false := by
  unfold findCand
  cases hx : findExact cols (lowerStr n) with
  | some c =>
    constructor
    · intro h
      cases h
    · intro hall
      exfalso
      rcases findExact_some hx with ⟨hm, he⟩
      have := hall c hm
      rw [he, containsStr_self] at this
      cases this
  | none =>
    exact findSub_eq_none_iff cols (lowerStr n)

theorem findFirst_eq_none_iff (cols cands : List Str) :
    findFirst cols cands = none ↔ ∀ n ∈ cands, findCand cols n = none := by
  induction cands with
  | nil => simp [findFirst]
  | cons n rest ih =>
    cases hx : findCand cols n with
    | some c => simp [findFirst, hx]
    | none => simp [findFirst, hx, ih]

theorem findExact_append_of_no_match {l1 : List Str} (l2 : List Str)
    {nl : Str} (h : ∀ x ∈ l1, lowerStr x ≠ nl) :
    findExact (l1 ++ l2) nl = findExact l2 nl := by
  induction l1 with
  | nil => rfl
  | cons x xs ih =>
    have hx : lowerStr x ≠ nl := h x (List.mem_cons_self _ _)
    simp only [List.cons_append, findExact, if_neg hx]
    exact ih fun y hy => h y (List.mem_cons_of_mem _ hy)

theorem findSub_append_of_no_match {l1 : List Str} (l2 : List Str)
    {nl : Str} (h : ∀ x ∈ l1, containsStr (lowerStr x) nl = false) :
    findSub (l1 ++ l2) nl = findSub l2 nl := by
  induction l1 with
  | nil => rfl
  | cons x xs ih =>
    have hx := h x (List.mem_cons_self _ _)
    simp only [List.cons_append, findSub, hx]
    simp only [Bool.false_eq_true, if_false]
    exact ih fun y hy => h y (List.mem_cons_of_mem _ hy)

/-- C9: `find_column` tries candidates in caller order; a candidate
resolves to the leftmost exact case-insensitive header match when one
exists, else to the leftmost header containing the candidate as a
substring; the first candidate that resolves wins; `none` is returned
exactly when no candidate matches any header.  (The embedding is a pure
function, so determinism and freedom from side effects are inherent.) -/
theorem c9_find_column_characterization :
    (∀ cols cands, find_column cols cands = none ↔
        ∀ n ∈ cands, ∀ c ∈ cols,
          containsStr (lowerStr (stripStr c)) (lowerStr n) = false) ∧
    (∀ pre h post n rest,
        (∀ x ∈ pre, lowerStr (stripStr x) ≠ lowerStr n) →
        lowerStr (stripStr h) = lowerStr n →
        find_column (pre ++ h :: post) (n :: rest) = some (stripStr h)) ∧
    (∀ pre h post n rest,
        (∀ x ∈ pre ++ h :: post, lowerStr (stripStr x) ≠ lowerStr n) →
        (∀ x ∈ pre,
          containsStr (lowerStr (stripStr x)) (lowerStr n) = false) →
        containsStr (lowerStr (stripStr h)) (lowerStr n) = true →
        find_column (pre ++ h :: post) (n :: rest) = some (stripStr h)) ∧
    (∀ cols n rest,
        (∀ c ∈ cols,
          containsStr (lowerStr (stripStr c)) (lowerStr n) = false) →
        find_column cols (n :: rest) = find_column cols rest) := by
  refine ⟨?_, ?_, ?_, ?_⟩
  · intro cols cands
    unfold find_column
    rw [findFirst_eq_none_iff]
    constructor
    · intro hall n hn c hc
      exact (findCand_eq_none_iff _ _).mp (hall n hn) (stripStr c)
        (List.mem_map_of_mem _ hc)
    · intro hall n hn
      rw [findCand_eq_none_iff]
      intro x hx
      rcases List.mem_map.mp hx with ⟨c, hc, rfl⟩
      exact hall n hn c hc
  · intro pre h post n rest hpre hh
    have hmap : (pre ++ h :: post).map stripStr
        = pre.map stripStr ++ stripStr h :: post.map stripStr := by
      simp
    have hef : findExact
        (pre.map stripStr ++ stripStr h :: post.map stripStr) (lowerStr n)
        = some (stripStr h) := by
      rw [findExact_append_of_no_match _ ?_]
      · simp only [findExact, if_pos hh]
      · intro x hx
        rcases List.mem_map.mp hx with ⟨y, hy, rfl⟩
        exact hpre y hy
    have hcand : findCand ((pre ++ h :: post).map stripStr) n
        = some (stripStr h) := by
      unfold findCand
      rw [hmap, hef]
    unfold find_column
    simp only [findFirst, hcand]
  · intro pre h post n rest hallne hpre hcont
    have hmap : (pre ++ h :: post).map stripStr
        = pre.map stripStr ++ stripStr h :: post.map stripStr := by
      simp
    have hex : findExact ((pre ++ h :: post).map stripStr) (lowerStr n)
        = none := by
      rw [findExact_eq_none_iff]
      intro x hx
      rcases List.mem_map.mp hx with ⟨y, hy, rfl⟩
      exact hallne y hy
    have hsub : findSub ((pre ++ h :: post).map stripStr) (lowerStr n)
        = some (stripStr h) := by
      rw [hmap, findSub_append_of_no_match _ ?_]
      · simp only [findSub, hcont, if_true]
      · intro x hx
        rcases List.mem_map.mp hx with ⟨y, hy, rfl⟩
        exact hpre y hy
    have hcand : findCand ((pre ++ h :: post).map stripStr) n
        = some (stripStr h) := by
      unfold findCand
      rw [hex, hsub]
    unfold find_column
    simp only [findFirst, hcand]
  · intro cols n rest hno
    have hcand : findCand (cols.map stripStr) n = none := by
      rw [findCand_eq_none_iff]
      intro x hx
      rcases List.mem_map.mp hx with ⟨c, hc, rfl⟩
      exact hno c hc
    unfold find_column
    simp only [findFirst, hcand]

/-- Witness for `c9_find_column_characterization` at concrete headers. -/
theorem c9_witness :
    find_column ["Post title".data, "Impressions".data] ["impressions".data]
      = some "Impressions".data ∧
    find_column ["Post title".data, "Total Clicks".data]
        ["clicks".data, "likes".data]
      = some "Total Clicks".data ∧
    find_column ["Post title".data] ["impressions".data] = none :=
  ⟨c9_find_column_characterization.2.1 ["Post title".data]
      "Impressions".data [] "impressions".data [] (by decide) (by decide),
   c9_find_column_characterization.2.2.1 ["Post title".data]
      "Total Clicks".data [] "clicks".data ["likes".data] (by decide)
      (by decide) (by decide),
   (c9_find_column_characterization.1 ["Post title".data]
      ["impressions".data]).mpr (by decide)⟩
